import Mathlib

/-!
Verification of the geometric core of PyBellows (src/bellows_generator.py).

The embedding models the pure geometric computations of the class
ConicBellowsGenerator over the rationals: the fold-plan derivation performed
in __init__ (lines 64-71), the two interpolation policies get_pair_dimension
(lines 73-89) and get_continuous_dimension (lines 91-105), the per-fold
quadrilateral constructors create_trapezoid (lines 107-162) and
create_rectangle (lines 164-187), and the per-face fold loops of
_generate_combined / _generate_single_face (lines 230-245, 288-293).

Python semantics captured explicitly: int() truncates toward zero (truncQ);
the // operator is floor division (Int.fdiv); the % operator with a positive
right operand returns a nonnegative remainder (Int.emod, Lean's % on ℤ);
float division by zero raises ZeroDivisionError (computeFoldPlan returns an
error in exactly that case; everywhere else the divisors are nonzero by
construction, so plain rational division is faithful).
-/

/-- Truncation toward zero: the behavior of Python's int() applied to a real
number, as in line 66 of bellows_generator.py. -/
def truncQ (q : ℚ) : ℤ := if 0 ≤ q then ⌊q⌋ else ⌈q⌉

/-- The constructor parameters of ConicBellowsGenerator (lines 27-62), with
the source's default values. All lengths are in millimetres. -/
structure ConicBellowsGenerator where
  front_w : ℚ := 96
  front_h : ℚ := 96
  rear_w : ℚ := 145
  rear_h : ℚ := 145
  stiffener_height : ℚ := 12
  gap_height : ℚ := 5/2
  chamfer : ℚ := 3/2
  face_gap : ℚ := 5
  max_draw : ℚ := 300
  margin : ℚ := 30
  stroke_width : ℚ := 1
  stroke_color : String := "black"
deriving DecidableEq

namespace ConicBellowsGenerator

/-- self.fold_cycle = self.stiffener_height + self.gap_height (line 65). -/
def fold_cycle (g : ConicBellowsGenerator) : ℚ := g.stiffener_height + g.gap_height

/-- self.num_folds = int(self.max_draw / self.fold_cycle) (line 66), before
the even correction. -/
def raw_folds (g : ConicBellowsGenerator) : ℤ := truncQ (g.max_draw / g.fold_cycle)

/-- self.num_folds after the even correction of lines 68-69: decrement by one
when odd. -/
def num_folds (g : ConicBellowsGenerator) : ℤ :=
  if g.raw_folds % 2 ≠ 0 then g.raw_folds - 1 else g.raw_folds

/-- self.total_length = self.num_folds * self.fold_cycle (line 71). -/
def total_length (g : ConicBellowsGenerator) : ℚ := (g.num_folds : ℚ) * g.fold_cycle

end ConicBellowsGenerator

/-- The derived fold plan: fold_cycle, num_folds and total_length as computed
once in __init__. -/
structure FoldPlan where
  fold_cycle : ℚ
  num_folds : ℤ
  total_length : ℚ
deriving DecidableEq

/-- The fold-plan derivation realized by __init__ (lines 64-71). The only
failure Python produces here is a ZeroDivisionError when fold_cycle = 0; the
code performs no input validation of any kind, so every other input yields a
plan. -/
def computeFoldPlan (g : ConicBellowsGenerator) : Except String FoldPlan :=
  if g.fold_cycle = 0 then .error "ZeroDivisionError"
  else .ok ⟨g.fold_cycle, g.num_folds, g.total_length⟩

/-- The generator built with the source's default arguments: the spec's
concrete scenario A (front 96×96, rear 145×145, stiffener 12, gap 2.5,
max draw 300). -/
def genA : ConicBellowsGenerator := {}

/-- Scenario B: as genA but max_draw = 310. -/
def genB : ConicBellowsGenerator := { max_draw := 310 }

/-- Scenario C: as genA but max_draw = 30, which yields num_folds = 2, a
single pair. -/
def genC : ConicBellowsGenerator := { max_draw := 30 }

/-- Scenario D: as genA but max_draw = 10 < fold_cycle, which yields
num_folds = 0. -/
def genD : ConicBellowsGenerator := { max_draw := 10 }

/-- An invalid configuration: stiffener_height = -1 ≤ 0 with gap_height = 5,
so fold_cycle = 4 is still positive and the code proceeds silently. -/
def genBad : ConicBellowsGenerator := { stiffener_height := -1, gap_height := 5 }

namespace ConicBellowsGenerator

theorem truncQ_of_nonneg {q : ℚ} (h : 0 ≤ q) : truncQ q = ⌊q⌋ := if_pos h

theorem raw_folds_nonneg (g : ConicBellowsGenerator) (hc : 0 < g.fold_cycle)
    (hd : 0 ≤ g.max_draw) : 0 ≤ g.raw_folds := by
  have hq : 0 ≤ g.max_draw / g.fold_cycle := div_nonneg hd hc.le
  rw [raw_folds, truncQ_of_nonneg hq]
  exact Int.floor_nonneg.mpr hq

theorem num_folds_nonneg (g : ConicBellowsGenerator) (hc : 0 < g.fold_cycle)
    (hd : 0 ≤ g.max_draw) : 0 ≤ g.num_folds := by
  have hr := g.raw_folds_nonneg hc hd
  rw [num_folds]
  split <;> omega

theorem num_folds_even (g : ConicBellowsGenerator) : Even g.num_folds := by
  rw [num_folds, Int.even_iff]
  split
  · omega
  · omega

theorem num_folds_le_raw (g : ConicBellowsGenerator) : g.num_folds ≤ g.raw_folds := by
  rw [num_folds]; split <;> omega

theorem raw_folds_le (g : ConicBellowsGenerator) (hc : 0 < g.fold_cycle)
    (hd : 0 ≤ g.max_draw) : (g.raw_folds : ℚ) * g.fold_cycle ≤ g.max_draw := by
  have hq : 0 ≤ g.max_draw / g.fold_cycle := div_nonneg hd hc.le
  have hfl : (g.raw_folds : ℚ) ≤ g.max_draw / g.fold_cycle := by
    rw [raw_folds, truncQ_of_nonneg hq]
    exact Int.floor_le _
  calc (g.raw_folds : ℚ) * g.fold_cycle
      ≤ (g.max_draw / g.fold_cycle) * g.fold_cycle := by
        exact mul_le_mul_of_nonneg_right hfl hc.le
    _ = g.max_draw := div_mul_cancel₀ _ (ne_of_gt hc)

end ConicBellowsGenerator

open ConicBellowsGenerator

/-- Claim C2: for stiffener_height > 0, gap_height ≥ 0, max_draw ≥ 0, the
plan satisfies fold_cycle = stiffener + gap, num_folds = floor of
max_draw / fold_cycle decremented by one when odd (hence even and ≥ 0), and
num_folds × fold_cycle = total_length exactly. Scenario A (defaults,
max_draw 300) gives cycle 29/2, num_folds 20, total 290; scenario B
(max_draw 310) truncates to 21, decrements to 20 and yields the identical
plan. -/
theorem spec_foldplan_even_exact (g : ConicBellowsGenerator)
    (h1 : 0 < g.stiffener_height) (h2 : 0 ≤ g.gap_height) (h3 : 0 ≤ g.max_draw) :
    g.fold_cycle = g.stiffener_height + g.gap_height ∧
    (g.num_folds =
      if ⌊g.max_draw / g.fold_cycle⌋ % 2 = 0 then ⌊g.max_draw / g.fold_cycle⌋
      else ⌊g.max_draw / g.fold_cycle⌋ - 1) ∧
    Even g.num_folds ∧ 0 ≤ g.num_folds ∧
    (g.num_folds : ℚ) * g.fold_cycle = g.total_length ∧
    genA.fold_cycle = 29/2 ∧ genA.num_folds = 20 ∧ genA.total_length = 290 ∧
    genB.raw_folds = 21 ∧ genB.num_folds = 20 ∧
    genB.fold_cycle = genA.fold_cycle ∧ genB.total_length = genA.total_length := by
  have hc : 0 < g.fold_cycle := by
    rw [fold_cycle]; linarith
  have hq : 0 ≤ g.max_draw / g.fold_cycle := div_nonneg h3 hc.le
  refine ⟨rfl, ?_, g.num_folds_even, g.num_folds_nonneg hc h3, rfl, ?_, ?_, ?_, ?_, ?_, rfl, ?_⟩
  · rw [num_folds, raw_folds, truncQ_of_nonneg hq]
    by_cases hpar : ⌊g.max_draw / g.fold_cycle⌋ % 2 = 0 <;> simp [hpar]
  · rw [fold_cycle]; norm_num [genA]
  · rw [num_folds, raw_folds, truncQ_of_nonneg (by norm_num [genA, fold_cycle])]
    norm_num [genA, fold_cycle]
  · rw [total_length, num_folds, raw_folds, truncQ_of_nonneg (by norm_num [genA, fold_cycle])]
    norm_num [genA, fold_cycle]
  · rw [raw_folds, truncQ_of_nonneg (by norm_num [genB, fold_cycle])]
    norm_num [genB, fold_cycle]
  · rw [num_folds, raw_folds, truncQ_of_nonneg (by norm_num [genB, fold_cycle])]
    norm_num [genB, fold_cycle]
  · rw [total_length, total_length, num_folds, num_folds, raw_folds, raw_folds,
      truncQ_of_nonneg (by norm_num [genB, fold_cycle]),
      truncQ_of_nonneg (by norm_num [genA, fold_cycle])]
    norm_num [genA, genB, fold_cycle]

/-- Witness for C2 at the concrete scenario-A generator. -/
theorem spec_foldplan_even_exact_wit :
    Even genA.num_folds ∧ (genA.num_folds : ℚ) * genA.fold_cycle = genA.total_length := by
  have h := spec_foldplan_even_exact genA (by norm_num [genA]) (by norm_num [genA])
    (by norm_num [genA])
  exact ⟨h.2.2.1, h.2.2.2.2.1⟩

/-- Claim C10: with fold_cycle > 0 and max_draw ≥ 0, the derived plan has
0 ≤ num_folds and 0 ≤ total_length ≤ max_draw: integer truncation and the
odd-count decrement never overshoot the requested draw. -/
theorem spec_total_length_bounded (g : ConicBellowsGenerator)
    (hc : 0 < g.fold_cycle) (hd : 0 ≤ g.max_draw) :
    0 ≤ g.num_folds ∧ 0 ≤ g.total_length ∧ g.total_length ≤ g.max_draw := by
  have hn := g.num_folds_nonneg hc hd
  refine ⟨hn, ?_, ?_⟩
  · rw [total_length]
    have : (0 : ℚ) ≤ (g.num_folds : ℚ) := by exact_mod_cast hn
    exact mul_nonneg this hc.le
  · rw [total_length]
    calc (g.num_folds : ℚ) * g.fold_cycle
        ≤ (g.raw_folds : ℚ) * g.fold_cycle := by
          have : (g.num_folds : ℚ) ≤ (g.raw_folds : ℚ) := by
            exact_mod_cast g.num_folds_le_raw
          exact mul_le_mul_of_nonneg_right this hc.le
      _ ≤ g.max_draw := g.raw_folds_le hc hd

/-- Witness for C10 at the scenario-B generator. -/
theorem spec_total_length_bounded_wit :
    0 ≤ genB.num_folds ∧ 0 ≤ genB.total_length ∧ genB.total_length ≤ genB.max_draw := by
  exact spec_total_length_bounded genB (by norm_num [genB, fold_cycle])
    (by norm_num [genB])

/-- Claim C1 (code divergence): the code performs no input validation. At the
invalid configuration stiffener_height = -1 (≤ 0), gap_height = 5,
max_draw = 300, __init__ raises nothing and silently derives the fold plan
fold_cycle = 4, num_folds = 74, total_length = 296. -/
theorem spec_no_invalid_configuration_check :
    computeFoldPlan genBad = .ok ⟨4, 74, 296⟩ ∧ genBad.stiffener_height ≤ 0 := by
  constructor
  · rw [computeFoldPlan]
    norm_num [genBad, ConicBellowsGenerator.fold_cycle, ConicBellowsGenerator.num_folds,
      ConicBellowsGenerator.raw_folds, ConicBellowsGenerator.total_length, truncQ]
  · norm_num [genBad]

namespace ConicBellowsGenerator

/-- get_pair_dimension (lines 73-89): pair_index = fold_index // 2,
num_pairs = self.num_folds // 2, ratio = pair_index / max(num_pairs - 1, 1),
result = dim_small + (dim_large - dim_small) * ratio. Python // is floor
division on integers and the final / is real division. -/
def get_pair_dimension (g : ConicBellowsGenerator) (fold_index : ℤ)
    (dim_small dim_large : ℚ) : ℚ :=
  let pair_index := Int.fdiv fold_index 2
  let num_pairs := Int.fdiv g.num_folds 2
  let ratio : ℚ := (pair_index : ℚ) / ((max (num_pairs - 1) 1 : ℤ) : ℚ)
  dim_small + (dim_large - dim_small) * ratio

/-- get_continuous_dimension (lines 91-105):
ratio = fold_index / max(self.num_folds - 1, 1),
result = dim_small + (dim_large - dim_small) * ratio. -/
def get_continuous_dimension (g : ConicBellowsGenerator) (fold_index : ℤ)
    (dim_small dim_large : ℚ) : ℚ :=
  let ratio : ℚ := (fold_index : ℚ) / ((max (g.num_folds - 1) 1 : ℤ) : ℚ)
  dim_small + (dim_large - dim_small) * ratio

end ConicBellowsGenerator

/-- Claim C6: for a fold index in range, get_pair_dimension returns
small + (large - small) * ((i // 2) / max(num_folds // 2 - 1, 1)); both folds
of a pair receive the same base dimension, and with exactly one pair
(num_folds = 2) the clamped denominator gives ratio 0, hence the value small,
with no division by zero. -/
theorem spec_pair_dimension (g : ConicBellowsGenerator) (i : ℤ)
    (small large : ℚ) (h0 : 0 ≤ i) (hi : i < g.num_folds) :
    g.get_pair_dimension i small large =
      small + (large - small) *
        ((Int.fdiv i 2 : ℚ) / ((max (Int.fdiv g.num_folds 2 - 1) 1 : ℤ) : ℚ)) ∧
    (∀ k : ℤ, g.get_pair_dimension (2 * k) small large
      = g.get_pair_dimension (2 * k + 1) small large) ∧
    (g.num_folds = 2 → g.get_pair_dimension i small large = small) := by
  refine ⟨rfl, ?_, ?_⟩
  · intro k
    have hk : Int.fdiv (2 * k) 2 = Int.fdiv (2 * k + 1) 2 := by
      rw [Int.fdiv_eq_ediv _ (by norm_num), Int.fdiv_eq_ediv _ (by norm_num)]
      omega
    simp only [get_pair_dimension, hk]
  · intro h2
    have hi2 : Int.fdiv i 2 = 0 := by
      rw [Int.fdiv_eq_ediv _ (by norm_num)]
      omega
    have hn2 : Int.fdiv g.num_folds 2 = 1 := by
      rw [h2, Int.fdiv_eq_ediv _ (by norm_num)]
      decide
    simp only [get_pair_dimension, hi2, hn2]
    norm_num

/-- Witness for C6 at the scenario-A generator, fold index 3. -/
theorem spec_pair_dimension_wit :
    genA.get_pair_dimension 3 96 145 =
      96 + (145 - 96) *
        ((Int.fdiv 3 2 : ℚ) / ((max (Int.fdiv genA.num_folds 2 - 1) 1 : ℤ) : ℚ)) := by
  have h20 : genA.num_folds = 20 :=
    (spec_foldplan_even_exact genA (by norm_num [genA]) (by norm_num [genA])
      (by norm_num [genA])).2.2.2.2.2.2.1
  exact (spec_pair_dimension genA 3 96 145 (by norm_num) (by omega)).1

/-- Claim C7: with ratio = fold_index / max(num_folds - 1, 1), the sequence
of rectangle-face widths get_continuous_dimension(i, front_h, rear_h) over
fold indices in range is monotone: non-decreasing when front_h < rear_h and
non-increasing when front_h > rear_h. -/
theorem spec_continuous_monotone (g : ConicBellowsGenerator) (i j : ℤ)
    (h0 : 0 ≤ i) (hij : i ≤ j) (hj : j < g.num_folds) :
    (g.front_h < g.rear_h →
      g.get_continuous_dimension i g.front_h g.rear_h
        ≤ g.get_continuous_dimension j g.front_h g.rear_h) ∧
    (g.rear_h < g.front_h →
      g.get_continuous_dimension j g.front_h g.rear_h
        ≤ g.get_continuous_dimension i g.front_h g.rear_h) := by
  have hD : (0 : ℚ) < ((max (g.num_folds - 1) 1 : ℤ) : ℚ) := by
    have : (1 : ℤ) ≤ max (g.num_folds - 1) 1 := le_max_right _ _
    exact_mod_cast lt_of_lt_of_le zero_lt_one this
  have hr : ((i : ℚ) / ((max (g.num_folds - 1) 1 : ℤ) : ℚ))
      ≤ ((j : ℚ) / ((max (g.num_folds - 1) 1 : ℤ) : ℚ)) :=
    (div_le_div_iff_of_pos_right hD).mpr (by exact_mod_cast hij)
  constructor
  · intro hlt
    simp only [get_continuous_dimension]
    have hpos : (0 : ℚ) ≤ g.rear_h - g.front_h := by linarith
    nlinarith [mul_le_mul_of_nonneg_left hr hpos]
  · intro hlt
    simp only [get_continuous_dimension]
    have hpos : (0 : ℚ) ≤ g.front_h - g.rear_h := by linarith
    nlinarith [mul_le_mul_of_nonneg_left hr hpos]

/-- Witness for C7 at the scenario-A generator, fold indices 2 and 11. -/
theorem spec_continuous_monotone_wit :
    genA.front_h < genA.rear_h ∧
      genA.get_continuous_dimension 2 genA.front_h genA.rear_h
        ≤ genA.get_continuous_dimension 11 genA.front_h genA.rear_h := by
  have h20 : genA.num_folds = 20 :=
    (spec_foldplan_even_exact genA (by norm_num [genA]) (by norm_num [genA])
      (by norm_num [genA])).2.2.2.2.2.2.1
  refine ⟨by norm_num [genA], ?_⟩
  exact (spec_continuous_monotone genA 2 11 (by norm_num) (by norm_num) (by omega)).1
    (by norm_num [genA])

namespace ConicBellowsGenerator

/-- Width selection of create_trapezoid (lines 122-145): base_width is this
pair's interpolated width, and the (top, bottom) widths are chosen by the
last-pair test current_pair == num_pairs - 1 and the parity of fold_index.
The last pair alternates between the previous pair's width (computed at
fold index (num_pairs - 2) * 2) and rear_w; normal pairs alternate between
base_width and the next pair's width. -/
def trap_widths (g : ConicBellowsGenerator) (fold_index : ℤ) : ℚ × ℚ :=
  let base_width := g.get_pair_dimension fold_index g.front_w g.rear_w
  let current_pair := Int.fdiv fold_index 2
  let num_pairs := Int.fdiv g.num_folds 2
  if current_pair = num_pairs - 1 then
    let prev_pair_width := g.get_pair_dimension ((num_pairs - 2) * 2) g.front_w g.rear_w
    if fold_index % 2 = 0 then (prev_pair_width, g.rear_w)
    else (g.rear_w, prev_pair_width)
  else
    let next_width := g.get_pair_dimension ((current_pair + 1) * 2) g.front_w g.rear_w
    if fold_index % 2 = 0 then (base_width, next_width)
    else (next_width, base_width)

/-- create_trapezoid (lines 107-162): vertical span y_top = margin +
fold_index * fold_cycle, y_bottom = y_top + stiffener_height; the four
points, in the order top-left, top-right, bottom-right, bottom-left, are the
half-widths inset by the chamfer. -/
def create_trapezoid (g : ConicBellowsGenerator) (fold_index : ℤ)
    (x_center : ℚ) : List (ℚ × ℚ) :=
  let width_top := (g.trap_widths fold_index).1
  let width_bottom := (g.trap_widths fold_index).2
  let y_top := g.margin + (fold_index : ℚ) * g.fold_cycle
  let y_bottom := y_top + g.stiffener_height
  let hw_top := width_top / 2
  let hw_bottom := width_bottom / 2
  [(x_center - hw_top + g.chamfer, y_top),
   (x_center + hw_top - g.chamfer, y_top),
   (x_center + hw_bottom - g.chamfer, y_bottom),
   (x_center - hw_bottom + g.chamfer, y_bottom)]

/-- create_rectangle (lines 164-187): one continuously interpolated width,
same vertical span and point ordering as create_trapezoid, top width equal
to bottom width. -/
def create_rectangle (g : ConicBellowsGenerator) (fold_index : ℤ)
    (x_center : ℚ) : List (ℚ × ℚ) :=
  let width := g.get_continuous_dimension fold_index g.front_h g.rear_h
  let y_top := g.margin + (fold_index : ℚ) * g.fold_cycle
  let y_bottom := y_top + g.stiffener_height
  let hw := width / 2
  [(x_center - hw + g.chamfer, y_top),
   (x_center + hw - g.chamfer, y_top),
   (x_center + hw - g.chamfer, y_bottom),
   (x_center - hw + g.chamfer, y_bottom)]

end ConicBellowsGenerator

/-- Claim C4: seam continuity. For an even fold index i with i + 1 still in
range, the bottom width of fold i equals the top width of fold i + 1, in
both the normal-pair and the last-pair branch. -/
theorem spec_seam_continuity (g : ConicBellowsGenerator) (i : ℤ)
    (h0 : 0 ≤ i) (hpar : i % 2 = 0) (hi : i + 1 < g.num_folds) :
    (g.trap_widths i).2 = (g.trap_widths (i + 1)).1 := by
  have hfd : Int.fdiv (i + 1) 2 = Int.fdiv i 2 := by
    rw [Int.fdiv_eq_ediv _ (by norm_num), Int.fdiv_eq_ediv _ (by norm_num)]
    omega
  have hm1 : (i + 1) % 2 = 1 := by omega
  simp only [ConicBellowsGenerator.trap_widths, hfd, hpar, hm1]
  norm_num
  split <;> rfl

/-- Witness for C4 at the scenario-A generator, folds 4 and 5. -/
theorem spec_seam_continuity_wit :
    (genA.trap_widths 4).2 = (genA.trap_widths 5).1 := by
  have h20 : genA.num_folds = 20 :=
    (spec_foldplan_even_exact genA (by norm_num [genA]) (by norm_num [genA])
      (by norm_num [genA])).2.2.2.2.2.2.1
  exact spec_seam_continuity genA 4 (by norm_num) (by decide) (by omega)

/-- Counterexample to claim C3: in the single-pair case num_folds = 2
(generator genC: max_draw = 30, cycle 29/2), fold 1 is the final fold, and
its widths are (top, bottom) = (rear_w, 2·front_w − rear_w) = (145, 47):
the bottom width of the final fold is 47, not rear_w = 145, so the very
final edge does not terminate at rear_w. -/
theorem spec_last_pair_claim_cex :
    genC.num_folds = 2 ∧ genC.trap_widths 1 = (145, 47) ∧
    ¬ (genC.trap_widths 1).2 = genC.rear_w := by
  have hnf : genC.num_folds = 2 := by
    rw [num_folds, raw_folds, truncQ_of_nonneg (by norm_num [genC, fold_cycle])]
    norm_num [genC, fold_cycle]
  have e1 : Int.fdiv (1 : ℤ) 2 = 0 := by decide
  have e2 : Int.fdiv (2 : ℤ) 2 = 1 := by decide
  have e3 : Int.fdiv (-2 : ℤ) 2 = -1 := by decide
  have key : genC.trap_widths 1 = (145, 47) := by
    simp only [ConicBellowsGenerator.trap_widths,
      ConicBellowsGenerator.get_pair_dimension, hnf, e1, e2]
    norm_num [genC, e3]
  refine ⟨hnf, key, ?_⟩
  rw [key]
  norm_num [genC]

/-- Claim C3 amended: in the last pair the even fold has widths
(top, bottom) = (previous pair's width, rear_w) and the odd fold — the very
last fold — has (top, bottom) = (rear_w, previous pair's width), where the
previous pair's width is the paired interpolation at fold index
(num_pairs − 2)·2. The final bottom edge therefore has the previous pair's
width, while rear_w appears at the edge shared by the two folds of the last
pair. For num_folds = 2, pair 0's base width is exactly front_w, and the
"previous pair" extrapolates to pair index −1, giving fold 1 the widths
(top, bottom) = (rear_w, 2·front_w − rear_w). -/
theorem spec_last_pair_widths (g : ConicBellowsGenerator)
    (h2 : 2 ≤ g.num_folds) (he : Even g.num_folds) :
    g.trap_widths (g.num_folds - 2)
      = (g.get_pair_dimension ((Int.fdiv g.num_folds 2 - 2) * 2) g.front_w g.rear_w,
         g.rear_w) ∧
    g.trap_widths (g.num_folds - 1)
      = (g.rear_w,
         g.get_pair_dimension ((Int.fdiv g.num_folds 2 - 2) * 2) g.front_w g.rear_w) ∧
    (g.num_folds = 2 →
      g.get_pair_dimension 0 g.front_w g.rear_w = g.front_w ∧
      g.get_pair_dimension ((Int.fdiv g.num_folds 2 - 2) * 2) g.front_w g.rear_w
        = 2 * g.front_w - g.rear_w) := by
  have hmod : g.num_folds % 2 = 0 := Int.even_iff.mp he
  have hfd2 : Int.fdiv (g.num_folds - 2) 2 = Int.fdiv g.num_folds 2 - 1 := by
    rw [Int.fdiv_eq_ediv _ (by norm_num), Int.fdiv_eq_ediv _ (by norm_num)]
    omega
  have hfd1 : Int.fdiv (g.num_folds - 1) 2 = Int.fdiv g.num_folds 2 - 1 := by
    rw [Int.fdiv_eq_ediv _ (by norm_num), Int.fdiv_eq_ediv _ (by norm_num)]
    omega
  have hm2 : (g.num_folds - 2) % 2 = 0 := by omega
  have hm1 : (g.num_folds - 1) % 2 = 1 := by omega
  refine ⟨?_, ?_, ?_⟩
  · simp only [ConicBellowsGenerator.trap_widths, hfd2, hm2]
    norm_num
  · simp only [ConicBellowsGenerator.trap_widths, hfd1, hm1]
    norm_num
  · intro h2eq
    have e0 : Int.fdiv (0 : ℤ) 2 = 0 := by decide
    have e2' : Int.fdiv (2 : ℤ) 2 = 1 := by decide
    have e3 : Int.fdiv (-2 : ℤ) 2 = -1 := by decide
    constructor
    · simp only [ConicBellowsGenerator.get_pair_dimension, h2eq, e0, e2']
      norm_num
    · simp only [ConicBellowsGenerator.get_pair_dimension, h2eq, e2']
      norm_num [e3]
      ring

/-- Witness for the amended C3 at the single-pair generator genC. -/
theorem spec_last_pair_widths_wit :
    genC.trap_widths (genC.num_folds - 1)
      = (genC.rear_w,
         genC.get_pair_dimension ((Int.fdiv genC.num_folds 2 - 2) * 2)
           genC.front_w genC.rear_w) := by
  have hnf : genC.num_folds = 2 := by
    rw [num_folds, raw_folds, truncQ_of_nonneg (by norm_num [genC, fold_cycle])]
    norm_num [genC, fold_cycle]
  exact (spec_last_pair_widths genC (by omega) (by rw [hnf]; decide)).2.1

/-- Counterexample to claim C5: the geometric core itself adds the margin.
At the default generator and fold index 0, the y coordinate of the first
point emitted by create_trapezoid is margin + 0·fold_cycle = 30, not the
margin-free 0·fold_cycle = 0 the claim requires. -/
theorem spec_relative_origin_cex :
    (genA.create_trapezoid 0 0).headI.2 = 30 ∧
    ¬ (genA.create_trapezoid 0 0).headI.2 = (0 : ℚ) * genA.fold_cycle := by
  constructor
  · simp [ConicBellowsGenerator.create_trapezoid, genA]
  · simp [ConicBellowsGenerator.create_trapezoid, genA]

/-- Claim C5 amended: for every fold index and both constructors, the two
top points sit at y = margin + fold_index · fold_cycle — the margin is added
by the core itself, not by the rendering collaborator — and the two bottom
points sit at that y plus stiffener_height. -/
theorem spec_vertical_span (g : ConicBellowsGenerator) (i : ℤ) (xc : ℚ) :
    (g.create_trapezoid i xc).map Prod.snd =
      [g.margin + (i : ℚ) * g.fold_cycle, g.margin + (i : ℚ) * g.fold_cycle,
       g.margin + (i : ℚ) * g.fold_cycle + g.stiffener_height,
       g.margin + (i : ℚ) * g.fold_cycle + g.stiffener_height] ∧
    (g.create_rectangle i xc).map Prod.snd =
      [g.margin + (i : ℚ) * g.fold_cycle, g.margin + (i : ℚ) * g.fold_cycle,
       g.margin + (i : ℚ) * g.fold_cycle + g.stiffener_height,
       g.margin + (i : ℚ) * g.fold_cycle + g.stiffener_height] := by
  constructor
  · simp [ConicBellowsGenerator.create_trapezoid]
  · simp [ConicBellowsGenerator.create_rectangle]

/-- Cross term of the shoelace formula for one directed edge. -/
def cross2 (p q : ℚ × ℚ) : ℚ := p.1 * q.2 - q.1 * p.2

/-- Sum of shoelace cross terms along a vertex list, closing back to the
first vertex p0. -/
def shoelaceFrom (p0 : ℚ × ℚ) : List (ℚ × ℚ) → ℚ
  | [] => 0
  | [p] => cross2 p p0
  | p :: q :: rest => cross2 p q + shoelaceFrom p0 (q :: rest)

/-- Twice the signed area of a closed polygon, by the shoelace formula, in
the pattern's y-downward coordinates. -/
def shoelace2 : List (ℚ × ℚ) → ℚ
  | [] => 0
  | p :: rest => shoelaceFrom p (p :: rest)

/-- Unsigned area of a closed polygon. -/
def polygonArea (ps : List (ℚ × ℚ)) : ℚ := |shoelace2 ps| / 2

/-- Claim C8: every emitted quadrilateral, in the fixed winding top-left,
top-right, bottom-right, bottom-left, has strictly positive area whenever
the (nonnegative) chamfer is smaller than half of each interpolated width
used by that fold and half the stiffener height. -/
theorem spec_positive_area (g : ConicBellowsGenerator) (i : ℤ) (xc : ℚ)
    (hc0 : 0 ≤ g.chamfer) :
    (g.chamfer < min (g.trap_widths i).1 g.stiffener_height / 2 →
      g.chamfer < min (g.trap_widths i).2 g.stiffener_height / 2 →
      0 < polygonArea (g.create_trapezoid i xc)) ∧
    (g.chamfer < min (g.get_continuous_dimension i g.front_h g.rear_h)
        g.stiffener_height / 2 →
      0 < polygonArea (g.create_rectangle i xc)) := by
  constructor
  · intro h1 h2
    have ht : g.chamfer < (g.trap_widths i).1 / 2 ∧ g.chamfer < g.stiffener_height / 2 := by
      constructor <;> [exact lt_of_lt_of_le h1 (by gcongr; exact min_le_left _ _);
        exact lt_of_lt_of_le h1 (by gcongr; exact min_le_right _ _)]
    have hb : g.chamfer < (g.trap_widths i).2 / 2 :=
      lt_of_lt_of_le h2 (by gcongr; exact min_le_left _ _)
    rw [polygonArea]
    have hs : shoelace2 (g.create_trapezoid i xc) =
        g.stiffener_height * (((g.trap_widths i).1 - 2 * g.chamfer)
          + ((g.trap_widths i).2 - 2 * g.chamfer)) := by
      simp only [ConicBellowsGenerator.create_trapezoid, shoelace2, shoelaceFrom, cross2]
      ring
    rw [hs]
    have hpos : 0 < g.stiffener_height * (((g.trap_widths i).1 - 2 * g.chamfer)
        + ((g.trap_widths i).2 - 2 * g.chamfer)) := by
      have hst : 0 < g.stiffener_height := by nlinarith [ht.2]
      nlinarith [ht.1, hb]
    rw [abs_of_pos hpos]
    linarith
  · intro h1
    have hw : g.chamfer < (g.get_continuous_dimension i g.front_h g.rear_h) / 2 :=
      lt_of_lt_of_le h1 (by gcongr; exact min_le_left _ _)
    have hst2 : g.chamfer < g.stiffener_height / 2 :=
      lt_of_lt_of_le h1 (by gcongr; exact min_le_right _ _)
    rw [polygonArea]
    have hs : shoelace2 (g.create_rectangle i xc) =
        g.stiffener_height * (2 * (g.get_continuous_dimension i g.front_h g.rear_h
          - 2 * g.chamfer)) := by
      simp only [ConicBellowsGenerator.create_rectangle, shoelace2, shoelaceFrom, cross2]
      ring
    rw [hs]
    have hst : 0 < g.stiffener_height := by nlinarith
    have hpos : 0 < g.stiffener_height * (2 * (g.get_continuous_dimension i g.front_h g.rear_h
        - 2 * g.chamfer)) := by nlinarith
    rw [abs_of_pos hpos]
    linarith

/-- Witness for C8 at the scenario-A generator, fold 0. -/
theorem spec_positive_area_wit :
    0 < polygonArea (genA.create_trapezoid 0 0) ∧
    0 < polygonArea (genA.create_rectangle 0 0) := by
  have h20 : genA.num_folds = 20 :=
    (spec_foldplan_even_exact genA (by norm_num [genA]) (by norm_num [genA])
      (by norm_num [genA])).2.2.2.2.2.2.1
  have e0 : Int.fdiv (0 : ℤ) 2 = 0 := by decide
  have e2 : Int.fdiv (2 : ℤ) 2 = 1 := by decide
  have e20 : Int.fdiv (20 : ℤ) 2 = 10 := by decide
  have hw : genA.trap_widths 0 = (96, 96 + 49 * (1 / 9)) := by
    simp only [ConicBellowsGenerator.trap_widths,
      ConicBellowsGenerator.get_pair_dimension, h20, e0, e2, e20]
    norm_num [genA]
  have hcd : genA.get_continuous_dimension 0 genA.front_h genA.rear_h = 96 := by
    simp only [ConicBellowsGenerator.get_continuous_dimension, h20]
    norm_num [genA]
  have h := spec_positive_area genA 0 0 (by norm_num [genA])
  refine ⟨h.1 ?_ ?_, h.2 ?_⟩
  · rw [hw]; norm_num [genA]
  · rw [hw]; norm_num [genA]
  · rw [hcd]; norm_num [genA]

/-- The four bellows faces, in the left-to-right order of
_generate_combined: top and bottom are trapezoid faces, right and left are
rectangle faces (lines 230-245, 260-274). -/
inductive FaceKind
  | top
  | right
  | bottom
  | left
deriving DecidableEq

/-- The sequence of quadrilaterals one face receives: the fold loop
for i in range(self.num_folds) of _generate_combined (lines 230-245) and
_generate_single_face (lines 288-293), which calls create_trapezoid for the
top and bottom faces and create_rectangle for the right and left faces.
Python's range of a nonpositive count is empty, hence the toNat. -/
def face_quads (g : ConicBellowsGenerator) (k : FaceKind) (x_center : ℚ) :
    List (List (ℚ × ℚ)) :=
  (List.range g.num_folds.toNat).map fun (i : ℕ) =>
    match k with
    | .top => g.create_trapezoid (i : ℤ) x_center
    | .right => g.create_rectangle (i : ℤ) x_center
    | .bottom => g.create_trapezoid (i : ℤ) x_center
    | .left => g.create_rectangle (i : ℤ) x_center

/-- Claim C9: face generation is total — it always yields a sequence of
exactly num_folds quadrilaterals (num_folds clamped at zero from below, as
Python's range is) — and whenever num_folds = 0 each of the four face kinds
receives the empty sequence: degenerate geometry is a valid result, not an
error. -/
theorem spec_face_generation_total (g : ConicBellowsGenerator) (k : FaceKind)
    (xc : ℚ) :
    (face_quads g k xc).length = g.num_folds.toNat ∧
    (g.num_folds = 0 →
      face_quads g FaceKind.top xc = [] ∧ face_quads g FaceKind.right xc = [] ∧
      face_quads g FaceKind.bottom xc = [] ∧ face_quads g FaceKind.left xc = []) := by
  constructor
  · cases k <;> simp [face_quads]
  · intro h0
    refine ⟨?_, ?_, ?_, ?_⟩ <;> simp [face_quads, h0]

/-- Witness for C9 at the degenerate generator genD (max_draw = 10 smaller
than the fold cycle, hence num_folds = 0). -/
theorem spec_face_generation_total_wit :
    face_quads genD FaceKind.top 0 = [] ∧ face_quads genD FaceKind.right 0 = [] ∧
    face_quads genD FaceKind.bottom 0 = [] ∧ face_quads genD FaceKind.left 0 = [] := by
  have h0 : genD.num_folds = 0 := by
    rw [num_folds, raw_folds, truncQ_of_nonneg (by norm_num [genD, fold_cycle])]
    norm_num [genD, fold_cycle]
  exact (spec_face_generation_total genD FaceKind.top 0).2 h0
